import Mathlib

/-!
Verification development for the file-transfer application
(transfer_server.py, transfer_client.py, service_discovery.py).

Bytes are modelled as `Nat` (each < 256 where the wire encoding matters),
byte strings as `List Nat`.  The SHA-256 function from `hashlib` is external
to the repository, so every definition that hashes takes the hash function
as an explicit argument `hash : List Nat → List Nat`; no property of the
hash beyond being a function is ever used.
-/

/-- The 2-byte status reply: `b'OK'` or `b'ER'` (transfer_server.py). -/
inductive Status where
  | ok
  | er
deriving DecidableEq, Repr

/-- Big-endian 4-byte encoding, the denotation of `struct.pack` with format
`!I` (network byte order, uint32). -/
def u32enc (n : Nat) : List Nat :=
  [n / 2 ^ 24 % 256, n / 2 ^ 16 % 256, n / 2 ^ 8 % 256, n % 256]

/-- Big-endian 8-byte encoding, the denotation of `struct.pack` with format
`!Q` (network byte order, uint64). -/
def u64enc (n : Nat) : List Nat :=
  [n / 2 ^ 56 % 256, n / 2 ^ 48 % 256, n / 2 ^ 40 % 256, n / 2 ^ 32 % 256,
   n / 2 ^ 24 % 256, n / 2 ^ 16 % 256, n / 2 ^ 8 % 256, n % 256]

/-- Big-endian decoding, the denotation of `struct.unpack` (both `!I` on a
4-byte list and `!Q` on an 8-byte list). -/
def beDec (b : List Nat) : Nat :=
  b.foldl (fun a x => a * 256 + x) 0

/-- Denotation of `_recv_exact(conn, n)` on a connection whose remaining
inbound bytes are `s`: the pair (returned data or `None`, remaining stream).
`_recv_exact` succeeds exactly when at least `n` bytes are still to arrive,
and then consumes exactly the first `n` (see `recvExact_spec` for the proof
that the chunk schedule of the underlying `recv` calls is irrelevant). -/
def takeExact (n : Nat) (s : List Nat) : Option (List Nat × List Nat) :=
  if n ≤ s.length then some (s.take n, s.drop n) else none

/-!
### `_recv_exact` (transfer_server.py lines 351-359, transfer_client.py
lines 127-135; both bodies are identical)

```python
def _recv_exact(self, conn, size):
    data = b''
    while len(data) < size:
        chunk = conn.recv(size - len(data))
        if not chunk:
            return None
        data += chunk
    return data
```

The TCP stream is modelled by the list `stream` of bytes that will arrive
before the peer closes, together with a schedule `sched : List Nat`: the
i-th `recv(m)` call returns `min m (max 1 sched_i)` bytes of the remaining
stream (at least one byte per call while the stream is nonempty, since a
blocking `recv` on an open connection never returns an empty result), and
an empty result exactly when the stream is exhausted (peer closed).
-/

/-- One `conn.recv(m)` call under cap `c`: the bytes returned and the rest
of the stream. -/
def recvChunk (c m : Nat) (stream : List Nat) : List Nat × List Nat :=
  let k := min m (max 1 c)
  (stream.take k, stream.drop k)

/-- The loop of `_recv_exact`, by the number `need` of bytes still missing.
Returns (data collected or `None`, remaining stream). -/
def recvExactGo (sched : List Nat) (stream : List Nat) (need : Nat) :
    Option (List Nat) × List Nat :=
  match need with
  | 0 => (some [], stream)
  | m + 1 =>
    match stream with
    | [] => (none, [])
    | b :: rest =>
      let cap := sched.headD (m + 1)
      let pair := recvChunk cap (m + 1) (b :: rest)
      let chunk := pair.1
      match recvExactGo sched.tail pair.2 (m + 1 - chunk.length) with
      | (none, s2) => (none, s2)
      | (some d, s2) => (some (chunk ++ d), s2)
termination_by need
decreasing_by
  simp only [recvChunk, List.length_take, List.length_cons]
  omega

/-- Denotation of `_recv_exact(conn, n)` under chunk schedule `sched`. -/
def recvExact (sched : List Nat) (stream : List Nat) (n : Nat) :
    Option (List Nat) × List Nat :=
  recvExactGo sched stream n

/-!
### Resumable single-file receiver
(`_receive_files_resumable_single`, transfer_server.py lines 77-203)

The header fields (`filename`, `filesize`, `chunk_size`, `sha256`) are
taken as already parsed (the byte-level header is treated with the
dispatcher below).  The on-disk state relevant to one file is the content
of its `.partial` sibling (`stored : Option (List Nat)`, `none` = no such
file) and of the destination path (`dest0 : Option (List Nat)`).
`stream` is the list of data bytes that arrive after the server's offset
reply and before the connection closes.
-/

/-- Content of the partial file after the staleness check of lines 128-138:
a partial larger than the declared size is deleted (and `open(..., 'ab')`
recreates it empty); otherwise it is kept. -/
def partBase (filesize : Nat) (stored : Option (List Nat)) : List Nat :=
  match stored with
  | none => []
  | some p => if filesize < p.length then [] else p

/-- The offset the server sends back (line 142): the length of the kept
partial content. -/
def serverOffset (filesize : Nat) (stored : Option (List Nat)) : Nat :=
  (partBase filesize stored).length

/-- Content of the partial file after the append loop of lines 146-162:
the kept partial followed by the arriving bytes, stopping at `filesize`
total (the loop reads at most `filesize - received` further bytes) or at
the end of the stream, whichever comes first. -/
def recvContent (filesize : Nat) (stored : Option (List Nat))
    (stream : List Nat) : List Nat :=
  partBase filesize stored ++ stream.take (filesize - serverOffset filesize stored)

/-- Observable outcome of one run of `_receive_files_resumable_single`
after its header has been read. -/
structure RecvResult where
  /-- the 8-byte offset reply of line 142, decoded -/
  offsetReply : Nat
  /-- the 2-byte status reply, `none` when the function returns without
  sending one -/
  status : Option Status
  /-- content of the `.partial` file on return, `none` if absent -/
  partFile : Option (List Nat)
  /-- content of the destination path on return, `none` if absent -/
  destFile : Option (List Nat)
  /-- whether the Python function returned `(filename, filesize)` rather
  than `None` -/
  retOk : Bool
deriving DecidableEq, Repr

/-- The body of `_receive_files_resumable_single` after header parsing: offset logic
(lines 128-144), append loop (lines 146-162), incomplete-transfer return
(lines 164-167), SHA-256 verification and rename / error reply
(lines 169-199). -/
def receiveResumable (hash : List Nat → List Nat) (filesize : Nat)
    (expected : List Nat) (stored dest0 : Option (List Nat))
    (stream : List Nat) : RecvResult :=
  let off := serverOffset filesize stored
  let content := recvContent filesize stored stream
  if content.length < filesize then
    { offsetReply := off, status := none, partFile := some content,
      destFile := dest0, retOk := false }
  else if hash content = expected then
    { offsetReply := off, status := some Status.ok, partFile := none,
      destFile := some content, retOk := true }
  else
    { offsetReply := off, status := some Status.er, partFile := some content,
      destFile := dest0, retOk := false }

/-!
### Resumable sender (`_send_single_file_internal`, transfer_client.py
lines 43-125) and the composed exchange
-/

/-- Bytes the client streams after reading the server's offset reply
(lines 91-102): it seeks to `off` and sends the rest of the file. -/
def clientBody (F : List Nat) (off : Nat) : List Nat :=
  F.drop off

/-- An interruption of the connection after `k` data bytes (`cut = some k`);
`cut = none` is an uninterrupted run. -/
def cutStream (cut : Option Nat) (s : List Nat) : List Nat :=
  match cut with
  | none => s
  | some k => s.take k

/-- One client-server exchange of the resumable protocol for a source file
with content `F`: the client computes `hash F` up front (lines 53-61) and
declares `filesize = F.length`; the server computes its offset from the
stored partial and replies it; the client seeks to that offset and streams
the rest, of which the first `cut` bytes (or all, if no interruption)
reach the server. -/
def resumableExchange (hash : List Nat → List Nat) (F : List Nat)
    (stored dest0 : Option (List Nat)) (cut : Option Nat) : RecvResult :=
  receiveResumable hash F.length (hash F) stored dest0
    (cutStream cut (clientBody F (serverOffset F.length stored)))

example :
    (resumableExchange (fun l => l) [5, 6, 7] none none none).destFile
      = some [5, 6, 7] := by
  decide

example :
    (resumableExchange (fun l => l) [5, 6, 7] none none (some 1)).partFile
      = some [5] := by
  decide

example :
    (resumableExchange (fun l => l) [5, 6, 7] (some [5]) none none).offsetReply
      = 1 := by
  decide

/-!
### Non-resumable single-file receiver
(`_receive_files_single`, transfer_server.py lines 230-287)

```python
received = 0
with open(output_path, 'wb') as f:
    while received < filesize:
        chunk_size = min(self.BUFFER_SIZE, filesize - received)
        data = conn.recv(chunk_size)
        if not data:
            ...
            break
        f.write(data)
        received += len(data)
        ...
print(f"\nFile saved to: ...")
conn.sendall(b'OK')
return filename, filesize
```

Note that after the loop the function sends `b'OK'` and returns
`(filename, filesize)` whether or not `received` reached `filesize`, and
the output file written so far is never removed.  The identical inner loop
of `_receive_single_file` (lines 298-349, used by the multi-file protocol)
also keeps the file and returns `(filename, filesize)` unconditionally
once the header was read.
-/

/-- Observable outcome of `_receive_files_single` after its header. -/
structure SingleResult where
  /-- content of the output file on return (`'wb'` truncates, so it holds
  exactly the bytes written by this run) -/
  written : Option (List Nat)
  /-- the 2-byte status reply, `none` when no reply is sent -/
  status : Option Status
  /-- whether the Python function returned `(filename, filesize)` -/
  retOk : Bool
deriving DecidableEq, Repr

/-- The body of `_receive_files_single` after header parsing: writes the arriving
bytes (at most `filesize` of them) to the destination, then sends `b'OK'`
and returns `(filename, filesize)` -- also when the stream closed early. -/
def receiveFilesSingle (filesize : Nat) (stream : List Nat) : SingleResult :=
  { written := some (stream.take filesize),
    status := some Status.ok,
    retOk := true }

/-!
### Multi-file protocol
(sender `_send_multiple_files_internal`, transfer_client.py lines 178-255;
receiver `_receive_files_multi` lines 205-228 with inner
`_receive_single_file` lines 298-349)
-/

/-- Per-file frame the sender emits (lines 206-224): `!I` filename
length, filename bytes, `!Q` file size, then the raw content. -/
def encodeFile (name content : List Nat) : List Nat :=
  u32enc name.length ++ name ++ u64enc content.length ++ content

/-- Everything `_send_multiple_files_internal` writes after the magic
(line 196 on): `!I` file count, then each file's frame back to back, in
list order, with no per-file acknowledgment read in between. -/
def sendMultiPayload (files : List (List Nat × List Nat)) : List Nat :=
  u32enc files.length ++ (files.map fun f => encodeFile f.1 f.2).flatten

/-- Denotation of `_receive_single_file`: parses the three header fields with
`_recv_exact` (whose denotation on a stream is `takeExact`, by
`recvExact_spec`), then writes the next `filesize` arriving bytes to the
named output file.  Returns `none` when a header read hits the end of the
stream (the Python function returns `None`; the stream is then exhausted);
otherwise the written `(filename, content)` pair and the rest of the
stream. -/
def receiveSingleInner (s : List Nat) :
    Option ((List Nat × List Nat) × List Nat) :=
  match takeExact 4 s with
  | none => none
  | some (lenB, s1) =>
    match takeExact (beDec lenB) s1 with
    | none => none
    | some (name, s2) =>
      match takeExact 8 s2 with
      | none => none
      | some (sizeB, s3) =>
        some ((name, s3.take (beDec sizeB)), s3.drop (beDec sizeB))

/-- The `for i in range(file_count)` loop of `_receive_files_multi`
(lines 216-219): runs the single-file inner receive logic exactly `count`
times, accumulating the files written, in order.  A `None` result (header
truncated: the stream is exhausted) is skipped and the loop continues on
the now-empty stream. -/
def receiveMultiLoop : Nat → List Nat → List (List Nat × List Nat) × List Nat
  | 0, s => ([], s)
  | k + 1, s =>
    match receiveSingleInner s with
    | none => receiveMultiLoop k []
    | some (f, s1) =>
      let rest := receiveMultiLoop k s1
      (f :: rest.1, rest.2)

/-- Observable outcome of `_receive_files_multi` after the magic. -/
structure MultiResult where
  /-- the files written, in the order they were fully received -/
  files : List (List Nat × List Nat)
  /-- the single 2-byte status reply, `none` when none is sent (count
  header truncated) -/
  status : Option Status
deriving DecidableEq, Repr

/-- Denotation of `_receive_files_multi`: reads the `!I` file count, loops exactly
`count` times over the inner single-file receive, then sends one `b'OK'`
(line 222). -/
def receiveFilesMulti (s : List Nat) : MultiResult :=
  match takeExact 4 s with
  | none => { files := [], status := none }
  | some (cntB, s1) =>
    { files := (receiveMultiLoop (beDec cntB) s1).1,
      status := some Status.ok }

/-!
### Protocol magics, client wire output and server dispatch
(client transfer_client.py lines 24-30, 63-68, 192-196, 289-293;
server `_receive_files`, transfer_server.py lines 42-75)
-/

/-- Legacy single-file protocol magic (server branch, line 55). -/
def MAGIC_SINGLE : Nat := 0xFFFF0001

/-- Multi-file protocol magic (line 59 / client line 193). -/
def MAGIC_MULTI : Nat := 0xFFFF0002

/-- Resumable single-file protocol magic (line 63 / client line 68). -/
def MAGIC_RESUMABLE : Nat := 0xFFFF0003

/-- Header bytes `_send_single_file_internal` writes (lines 63-83): the
resumable magic, the filename frame, `!Q` size, `!I` preferred chunk size
65536, and the 32-byte SHA-256 digest. -/
def sendSingleHeader (hash : List Nat → List Nat) (name F : List Nat) :
    List Nat :=
  u32enc MAGIC_RESUMABLE ++ u32enc name.length ++ name
    ++ u64enc F.length ++ u32enc 65536 ++ hash F

/-- Full wire output of `_send_multiple_files_internal` (also used by
`_send_directory_internal`, lines 286-293): the multi magic followed by
the multi payload. -/
def sendMultiWire (files : List (List Nat × List Nat)) : List Nat :=
  u32enc MAGIC_MULTI ++ sendMultiPayload files

/-- Leading wire bytes produced by `send_file` (lines 24-30): a directory
goes through `send_directory` (multi protocol), anything else through
`send_single_file` (resumable protocol). -/
def sendFileWire (hash : List Nat → List Nat) (isDir : Bool)
    (name F : List Nat) (files : List (List Nat × List Nat)) : List Nat :=
  if isDir then sendMultiWire files else sendSingleHeader hash name F

/-- The protocol branch `_receive_files` dispatches to. -/
inductive Proto where
  | single
  | multi
  | resumable
  | unknown (m : Nat)
deriving DecidableEq, Repr

/-- Magic dispatch of `_receive_files` (lines 47-69): read 4 bytes, decode
`!I`, and select the protocol branch; an unknown magic is rejected. -/
def dispatchProto (s : List Nat) : Option (Proto × List Nat) :=
  match takeExact 4 s with
  | none => none
  | some (m4, rest) =>
    let m := beDec m4
    if m = MAGIC_SINGLE then some (Proto.single, rest)
    else if m = MAGIC_MULTI then some (Proto.multi, rest)
    else if m = MAGIC_RESUMABLE then some (Proto.resumable, rest)
    else some (Proto.unknown m, rest)

example :
    dispatchProto (sendSingleHeader (fun l => l) [97] [1, 2])
      = some (Proto.resumable, (sendSingleHeader (fun l => l) [97] [1, 2]).drop 4) := by
  decide

/-!
### Client retry policy
(`_retry_with_backoff`, transfer_client.py lines 142-162, and
`send_single_file`, lines 32-41)

```python
for attempt in range(1, self.MAX_RETRIES + 1):
    try:
        return operation()
    except (socket.error, ConnectionError, BrokenPipeError) as e:
        if attempt < self.MAX_RETRIES:
            wait_time = self.RETRY_DELAY * (2 ** (attempt - 1))
            ...
            time.sleep(wait_time)
        else:
            ...
            raise
```
-/

/-- The constant `MAX_RETRIES` (transfer_client.py line 16). -/
def MAX_RETRIES : Nat := 3

/-- The constant `RETRY_DELAY` in seconds (transfer_client.py line 17). -/
def RETRY_DELAY : Nat := 2

/-- Kinds of exception an attempt can raise.  `connErr` stands for the
socket-level errors (`ConnectionError`, `BrokenPipeError`, and plain
`socket.error` = `OSError`); `fileNotFound` for `FileNotFoundError`
(which, being a subclass of `OSError`, would also be caught inside the
retry loop -- but `send_single_file` checks existence before entering it);
`protoErr` for the plain `Exception` raised on a non-`OK` status reply
(line 122, "checksum mismatch?"). -/
inductive ExcKind where
  | connErr
  | fileNotFound
  | protoErr
deriving DecidableEq, Repr

/-- Whether the `except (socket.error, ConnectionError, BrokenPipeError)`
clause of `_retry_with_backoff` catches an exception of this kind.
`socket.error` is `OSError` in Python 3, of which `FileNotFoundError` is a
subclass; a plain `Exception` is caught by none of the three. -/
def caughtByRetry : ExcKind → Bool
  | ExcKind.connErr => true
  | ExcKind.fileNotFound => true
  | ExcKind.protoErr => false

/-- What one attempt of the retried operation does (attempts are numbered
from 1 as in the Python `range(1, MAX_RETRIES + 1)`). -/
inductive AttemptOutcome where
  | success (v : Nat)
  | raised (e : ExcKind)
deriving DecidableEq, Repr

/-- Observable trace of `_retry_with_backoff`. -/
structure RetryTrace where
  /-- the value returned, or the exception finally propagated -/
  result : Except ExcKind Nat
  /-- how many times `operation()` was invoked -/
  attemptsMade : Nat
  /-- the `time.sleep` delays performed, in order -/
  sleeps : List Nat
deriving Repr

/-- The `for attempt in range(1, MAX_RETRIES + 1)` loop, with `fuel`
attempts left starting at attempt number `attempt`. -/
def retryGo (outcomes : Nat → AttemptOutcome) : Nat → Nat → RetryTrace
  | _, 0 => { result := Except.error ExcKind.connErr, attemptsMade := 0, sleeps := [] }
  | attempt, fuel + 1 =>
    match outcomes attempt with
    | AttemptOutcome.success v =>
      { result := Except.ok v, attemptsMade := 1, sleeps := [] }
    | AttemptOutcome.raised e =>
      if caughtByRetry e then
        if attempt < MAX_RETRIES then
          let w := RETRY_DELAY * 2 ^ (attempt - 1)
          let rest := retryGo outcomes (attempt + 1) fuel
          { result := rest.result, attemptsMade := rest.attemptsMade + 1,
            sleeps := w :: rest.sleeps }
        else
          { result := Except.error e, attemptsMade := 1, sleeps := [] }
      else
        { result := Except.error e, attemptsMade := 1, sleeps := [] }

/-- Denotation of `_retry_with_backoff(operation)`, where `outcomes i` is what
`operation()` does on its i-th invocation. -/
def retryWithBackoff (outcomes : Nat → AttemptOutcome) : RetryTrace :=
  retryGo outcomes 1 MAX_RETRIES

/-- Denotation of `send_single_file` (lines 32-41): raises `FileNotFoundError` before
entering the retry loop when the source file does not exist; otherwise
retries `_send_single_file_internal` with backoff. -/
def sendSingleFileOp (fileExists : Bool) (outcomes : Nat → AttemptOutcome) :
    RetryTrace :=
  if fileExists then retryWithBackoff outcomes
  else { result := Except.error ExcKind.fileNotFound, attemptsMade := 0, sleeps := [] }

example :
    (retryWithBackoff fun _ => AttemptOutcome.raised ExcKind.connErr).sleeps
      = [2, 4] := by
  decide

example :
    (retryWithBackoff fun _ => AttemptOutcome.raised ExcKind.protoErr).attemptsMade
      = 1 := by
  decide

/-!
### Discovery service peer table
(`_listen_for_beacons`, service_discovery.py lines 261-331, and
`_cleanup_stale_peers`, lines 333-351)

The peer table `self.peers` is a dict from machine name to
`{ip, port, last_seen}`; it is modelled as an association list with
distinct keys (`keysOf t` is `Nodup` where that matters).  Time is a `Nat`
(seconds); the callback is present or not (`hasCallback`), matching the
`... and self.callback` guard.
-/

/-- The constant `TIMEOUT` for stale peers, seconds (service_discovery.py line 18). -/
def TIMEOUT : Nat := 4

/-- The constant `BEACON_INTERVAL`, seconds (service_discovery.py line 17). -/
def BEACON_INTERVAL : Nat := 1

/-- One peer-table value: `{'ip': ..., 'port': ..., 'last_seen': ...}`. -/
structure Peer where
  ip : String
  port : Nat
  lastSeen : Nat
deriving DecidableEq, Repr

/-- A parsed beacon datagram `{name, ip, port, timestamp}` (the timestamp
field is never read by the listener). -/
structure BeaconMsg where
  name : String
  ip : String
  port : Nat
deriving DecidableEq, Repr

/-- The dict upsert `self.peers[name] = {...}`: replace the entry with
this key, or append a new one. -/
def upsertPeer : List (String × Peer) → String → Peer → List (String × Peer)
  | [], k, v => [(k, v)]
  | (k1, v1) :: t, k, v =>
    if k1 = k then (k, v) :: t else (k1, v1) :: upsertPeer t k v

/-- The key list `self.peers.keys()`. -/
def keysOf (t : List (String × Peer)) : List String :=
  t.map Prod.fst

/-- Equality of `set(a)` and `set(b)` (the `old_peers != new_peers` check
compares Python sets of keys). -/
def sameKeySet (a b : List String) : Bool :=
  a.all (fun k => b.contains k) && b.all (fun k => a.contains k)

/-- Dict lookup `self.peers.get(name)`. -/
def lookupPeer : List (String × Peer) → String → Option Peer
  | [], _ => none
  | (k1, v1) :: t, k => if k1 = k then some v1 else lookupPeer t k

/-- Handling of one valid datagram by `_listen_for_beacons`
(lines 300-317): self-originated beacons are ignored; otherwise the table
is upserted with the beacon's ip and port and `last_seen = time.time()`,
and the callback fires iff the key set changed and a callback is set.
Returns (new table, whether the callback fired). -/
def handleBeacon (machineName : String) (hasCallback : Bool)
    (t : List (String × Peer)) (m : BeaconMsg) (now : Nat) :
    List (String × Peer) × Bool :=
  if m.name = machineName then (t, false)
  else
    let t1 := upsertPeer t m.name { ip := m.ip, port := m.port, lastSeen := now }
    (t1, !sameKeySet (keysOf t) (keysOf t1) && hasCallback)

/-- Whether an entry is stale at time `now`:
`current_time - info['last_seen'] > self.TIMEOUT`. -/
def isStale (now : Nat) (p : String × Peer) : Bool :=
  decide (TIMEOUT < now - p.2.lastSeen)

/-- One pass of `_cleanup_stale_peers` (lines 339-351): delete every stale
entry, and fire the callback iff the key set changed and a callback is
set. -/
def cleanupStep (hasCallback : Bool) (t : List (String × Peer)) (now : Nat) :
    List (String × Peer) × Bool :=
  let t1 := t.filter (fun p => !isStale now p)
  (t1, !sameKeySet (keysOf t) (keysOf t1) && hasCallback)

example :
    (handleBeacon "me" true [] { name := "bob", ip := "10.0.0.2", port := 5000 } 7)
      = ([("bob", { ip := "10.0.0.2", port := 5000, lastSeen := 7 })], true) := by
  decide

example :
    (handleBeacon "me" true
        [("bob", { ip := "10.0.0.2", port := 5000, lastSeen := 3 })]
        { name := "bob", ip := "10.0.0.2", port := 5000 } 7).2 = false := by
  decide

example :
    (cleanupStep true
        [("bob", { ip := "10.0.0.2", port := 5000, lastSeen := 3 })] 9)
      = ([], true) := by
  decide

/-!
### Shared lemmas
-/

theorem length_u32enc (n : Nat) : (u32enc n).length = 4 := by
  simp [u32enc]

theorem length_u64enc (n : Nat) : (u64enc n).length = 8 := by
  simp [u64enc]

theorem beDec_u32enc (n : Nat) (h : n < 2 ^ 32) : beDec (u32enc n) = n := by
  simp only [beDec, u32enc, List.foldl]
  omega

theorem beDec_u64enc (n : Nat) (h : n < 2 ^ 64) : beDec (u64enc n) = n := by
  simp only [beDec, u64enc, List.foldl]
  omega

theorem takeExact_append (n : Nat) (a b : List Nat) (h : a.length = n) :
    takeExact n (a ++ b) = some (a, b) := by
  subst h
  simp [takeExact, List.take_left, List.drop_left]

theorem recvExactGo_spec (n : Nat) : ∀ sched stream : List Nat,
    recvExactGo sched stream n =
      if n ≤ stream.length then (some (stream.take n), stream.drop n)
      else (none, []) := by
  induction n using Nat.strong_induction_on with
  | _ n ih =>
    intro sched stream
    match n with
    | 0 => simp [recvExactGo]
    | m + 1 =>
      match stream with
      | [] => simp [recvExactGo]
      | b :: rest =>
        rw [recvExactGo]
        simp only [recvChunk, List.length_take, List.length_cons]
        have hk1 : 1 ≤ min (m + 1) (max 1 (sched.headD (m + 1))) := by omega
        set k := min (m + 1) (max 1 (sched.headD (m + 1))) with hkdef
        have hkm : k ≤ m + 1 := by omega
        have hlen : m + 1 - min k (rest.length + 1) < m + 1 := by omega
        rw [ih (m + 1 - min k (rest.length + 1)) hlen sched.tail ((b :: rest).drop k)]
        by_cases hks : k ≤ rest.length + 1
        · have hmink : min k (rest.length + 1) = k := by omega
          rw [hmink]
          have hdlen : ((b :: rest).drop k).length = rest.length + 1 - k := by
            simp [List.length_drop]
          rw [hdlen]
          by_cases hfull : m + 1 ≤ rest.length + 1
          · have hc : m + 1 - k ≤ rest.length + 1 - k := by omega
            simp only [if_pos hc, if_pos hfull]
            have hsum : m + 1 = k + (m + 1 - k) := by omega
            have h1 : List.take (m + 1) (b :: rest)
                = List.take k (b :: rest) ++ List.take (m + 1 - k) (List.drop k (b :: rest)) := by
              conv_lhs => rw [hsum]
              rw [List.take_add]
            have h2 : List.drop (m + 1 - k) (List.drop k (b :: rest))
                = List.drop (m + 1) (b :: rest) := by
              rw [List.drop_drop]
              congr 1
              omega
            rw [h1, h2]
          · have hc : ¬ (m + 1 - k ≤ rest.length + 1 - k) := by omega
            simp only [if_neg hc, if_neg hfull]
        · have hmink : min k (rest.length + 1) = rest.length + 1 := by omega
          rw [hmink]
          have hdrop : (b :: rest).drop k = [] := by
            apply List.drop_eq_nil_of_le
            simp
            omega
          rw [hdrop]
          have hc : ¬ (m + 1 - (rest.length + 1) ≤ ([] : List Nat).length) := by
            simp
            omega
          have hfull : ¬ (m + 1 ≤ rest.length + 1) := by
            omega
          rw [if_neg hc, if_neg hfull]

theorem partBase_length_le (filesize : Nat) (stored : Option (List Nat)) :
    (partBase filesize stored).length ≤ filesize := by
  match stored with
  | none => simp [partBase]
  | some p =>
    simp only [partBase]
    split
    · simp
    · omega

theorem offsetReply_receiveResumable (hash : List Nat → List Nat)
    (filesize : Nat) (digest : List Nat) (stored dest0 : Option (List Nat))
    (stream : List Nat) :
    (receiveResumable hash filesize digest stored dest0 stream).offsetReply
      = serverOffset filesize stored := by
  simp only [receiveResumable]
  split
  · rfl
  · split
    · rfl
    · rfl

theorem recvContent_length (filesize : Nat) (stored : Option (List Nat))
    (stream : List Nat) :
    (recvContent filesize stored stream).length
      = serverOffset filesize stored
        + min (filesize - serverOffset filesize stored) stream.length := by
  simp [recvContent, serverOffset, List.length_take]

/-!
### Claim theorems
-/

/-- Claim C1: a file sent via the resumable protocol with no interruption
finalizes to an output byte-identical to the source; and after a first
attempt interrupted at exactly `k` bytes (`0 < k < size`), a second
attempt with the same source gets offset reply `k`, the sender seeks to
`k` and transmits exactly the bytes `k..size-1` (never the first `k`),
and the finalized output is byte-identical to the source. -/
theorem resumable_round_trip (hash : List Nat → List Nat) (F : List Nat)
    (dest0 : Option (List Nat)) :
    ((resumableExchange hash F none dest0 none).status = some Status.ok
      ∧ (resumableExchange hash F none dest0 none).destFile = some F)
  ∧ (∀ k, 0 < k → k < F.length →
      (resumableExchange hash F none dest0 (some k)).status = none
    ∧ (resumableExchange hash F none dest0 (some k)).partFile = some (F.take k)
    ∧ (resumableExchange hash F (some (F.take k)) dest0 none).offsetReply = k
    ∧ clientBody F k = F.drop k
    ∧ (clientBody F k).length = F.length - k
    ∧ F.take k ++ clientBody F k = F
    ∧ (resumableExchange hash F (some (F.take k)) dest0 none).status = some Status.ok
    ∧ (resumableExchange hash F (some (F.take k)) dest0 none).destFile = some F) := by
  have hoff0 : serverOffset F.length none = 0 := rfl
  constructor
  · have hcont : recvContent F.length none
        (cutStream none (clientBody F (serverOffset F.length none))) = F := by
      simp [recvContent, partBase, serverOffset, cutStream, clientBody, List.take_length]
    constructor <;>
      simp [resumableExchange, receiveResumable, hcont, Nat.lt_irrefl]
  · intro k hk0 hkl
    have htk : (F.take k).length = k := by
      simp [List.length_take]
      omega
    have hcont1 : recvContent F.length none
        (cutStream (some k) (clientBody F 0)) = F.take k := by
      simp only [cutStream, clientBody, List.drop_zero, recvContent, partBase,
        serverOffset, List.nil_append, Nat.sub_zero, List.length_nil]
      rw [List.take_take]
      congr 1
      omega
    have hlt1 : (F.take k).length < F.length := by omega
    have hex1status : (resumableExchange hash F none dest0 (some k)).status = none := by
      simp only [resumableExchange, receiveResumable, hcont1, hoff0]
      rw [if_pos hlt1]
    have hex1part : (resumableExchange hash F none dest0 (some k)).partFile
        = some (F.take k) := by
      simp only [resumableExchange, receiveResumable, hcont1, hoff0]
      rw [if_pos hlt1]
    have hpb : partBase F.length (some (F.take k)) = F.take k := by
      simp only [partBase, htk]
      rw [if_neg (by omega)]
    have hoff2 : serverOffset F.length (some (F.take k)) = k := by
      simp [serverOffset, hpb, htk]
    have hcont2 : recvContent F.length (some (F.take k))
        (cutStream none (clientBody F k)) = F := by
      simp only [cutStream, clientBody, recvContent, hpb, serverOffset, htk]
      have hd : (F.drop k).take (F.length - k) = F.drop k := by
        apply List.take_of_length_le
        simp [List.length_drop]
      rw [hd, List.take_append_drop]
    have hex2 : resumableExchange hash F (some (F.take k)) dest0 none
        = { offsetReply := k, status := some Status.ok, partFile := none,
            destFile := some F, retOk := true } := by
      simp only [resumableExchange, receiveResumable, hoff2, hcont2]
      simp
    refine ⟨hex1status, hex1part, ?_, rfl, ?_, List.take_append_drop k F, ?_, ?_⟩
    · rw [hex2]
    · simp [clientBody, List.length_drop]
    · rw [hex2]
    · rw [hex2]

/-- Witness for C1: a 3-byte file with hash `id`, interrupted after 1
byte, resumes at offset 1 and finalizes to the source bytes. -/
theorem resumable_round_trip_witness :
    (resumableExchange (fun l => l) [5, 6, 7] none none (some 1)).status = none
  ∧ (resumableExchange (fun l => l) [5, 6, 7] none none (some 1)).partFile = some [5]
  ∧ (resumableExchange (fun l => l) [5, 6, 7] (some [5]) none none).offsetReply = 1
  ∧ (resumableExchange (fun l => l) [5, 6, 7] (some [5]) none none).destFile
      = some [5, 6, 7] := by
  have h := (resumable_round_trip (fun l => l) [5, 6, 7] none).2 1 (by decide) (by decide)
  refine ⟨h.1, ?_, ?_, ?_⟩
  · simpa using h.2.1
  · simpa using h.2.2.1
  · simpa using h.2.2.2.2.2.2.2

/-- Claim C2: the resumable receiver's offset reply is computed solely
from the on-disk partial and the declared size -- 0 with no partial, the
partial's length when that is at most the size, and 0 (with the partial
discarded, so the run coincides with a no-partial run) when it exceeds
the size; in every case the reply is at most the size. -/
theorem resumable_offset_reply (hash : List Nat → List Nat) (filesize : Nat)
    (digest : List Nat) (dest0 : Option (List Nat)) (stream : List Nat) :
    (receiveResumable hash filesize digest none dest0 stream).offsetReply = 0
  ∧ (∀ p, p.length ≤ filesize →
      (receiveResumable hash filesize digest (some p) dest0 stream).offsetReply = p.length)
  ∧ (∀ p, filesize < p.length →
      receiveResumable hash filesize digest (some p) dest0 stream
        = receiveResumable hash filesize digest none dest0 stream)
  ∧ (∀ stored,
      (receiveResumable hash filesize digest stored dest0 stream).offsetReply ≤ filesize) := by
  refine ⟨?_, ?_, ?_, ?_⟩
  · rw [offsetReply_receiveResumable]
    rfl
  · intro p hp
    rw [offsetReply_receiveResumable]
    simp only [serverOffset, partBase]
    rw [if_neg (by omega)]
  · intro p hp
    have hpb : partBase filesize (some p) = partBase filesize none := by
      simp [partBase, if_pos hp]
    simp only [receiveResumable, recvContent, serverOffset, hpb]
  · intro stored
    rw [offsetReply_receiveResumable]
    exact partBase_length_le filesize stored

/-- Witness for C2: with declared size 2, a 1-byte partial yields offset
1; a 3-byte partial is discarded and the run equals the no-partial run;
the reply never exceeds the size. -/
theorem resumable_offset_reply_witness :
    (receiveResumable (fun l => l) 2 [9] (some [1]) none [4]).offsetReply = 1
  ∧ receiveResumable (fun l => l) 2 [9] (some [1, 2, 3]) none [4]
      = receiveResumable (fun l => l) 2 [9] none none [4]
  ∧ (receiveResumable (fun l => l) 2 [9] (some [1, 2, 3]) none [4]).offsetReply ≤ 2 := by
  have h := resumable_offset_reply (fun l => l) 2 [9] none [4]
  exact ⟨by simpa using h.2.1 [1] (by decide),
    h.2.2.1 [1, 2, 3] (by decide),
    h.2.2.2 (some [1, 2, 3])⟩

/-- Claim C3: once exactly `size` bytes are on disk, the receiver hashes
the whole partial file and compares with the header digest -- equal means
the destination is replaced by the partial content (whatever was at the
destination before) and the reply is `OK`; unequal means the reply is
`ER`, the partial is not renamed into place, and it stays on disk. -/
theorem resumable_verify (hash : List Nat → List Nat) (filesize : Nat)
    (digest : List Nat) (stored dest0 : Option (List Nat)) (stream : List Nat)
    (hfull : filesize ≤ serverOffset filesize stored + stream.length) :
    (hash (recvContent filesize stored stream) = digest →
        (receiveResumable hash filesize digest stored dest0 stream).status = some Status.ok
      ∧ (receiveResumable hash filesize digest stored dest0 stream).destFile
          = some (recvContent filesize stored stream)
      ∧ (receiveResumable hash filesize digest stored dest0 stream).partFile = none
      ∧ (receiveResumable hash filesize digest stored dest0 stream).retOk = true)
  ∧ (hash (recvContent filesize stored stream) ≠ digest →
        (receiveResumable hash filesize digest stored dest0 stream).status = some Status.er
      ∧ (receiveResumable hash filesize digest stored dest0 stream).destFile = dest0
      ∧ (receiveResumable hash filesize digest stored dest0 stream).partFile
          = some (recvContent filesize stored stream)
      ∧ (receiveResumable hash filesize digest stored dest0 stream).retOk = false) := by
  have hoff := partBase_length_le filesize stored
  have hlen : (recvContent filesize stored stream).length = filesize := by
    rw [recvContent_length]
    simp only [serverOffset] at *
    omega
  have hnlt : ¬ ((recvContent filesize stored stream).length < filesize) := by
    omega
  constructor
  · intro heq
    simp only [receiveResumable]
    rw [if_neg hnlt, if_pos heq]
    exact ⟨rfl, rfl, rfl, rfl⟩
  · intro hne
    simp only [receiveResumable]
    rw [if_neg hnlt, if_neg hne]
    exact ⟨rfl, rfl, rfl, rfl⟩

/-- Witness for C3: a 1-byte transfer with matching digest finalizes with
`OK`; with a non-matching digest it replies `ER` and keeps the partial. -/
theorem resumable_verify_witness :
    (receiveResumable (fun l => l) 1 [7] none none [7]).status = some Status.ok
  ∧ (receiveResumable (fun l => l) 1 [7] none none [7]).destFile = some [7]
  ∧ (receiveResumable (fun l => l) 1 [9] none none [7]).status = some Status.er
  ∧ (receiveResumable (fun l => l) 1 [9] none none [7]).partFile = some [7] := by
  have h1 := resumable_verify (fun l => l) 1 [7] none none [7] (by decide)
  have h2 := resumable_verify (fun l => l) 1 [9] none none [7] (by decide)
  refine ⟨(h1.1 (by decide)).1, ?_, (h2.2 (by decide)).1, ?_⟩
  · simpa using (h1.1 (by decide)).2.1
  · simpa using (h2.2 (by decide)).2.2.1

/-- Claim C4: when the connection closes before `size` bytes are on disk,
the resumable receiver sends no status reply, returns `None` without
raising, and every byte received so far stays appended to the partial
file. -/
theorem resumable_early_close (hash : List Nat → List Nat) (filesize : Nat)
    (digest : List Nat) (stored dest0 : Option (List Nat)) (stream : List Nat)
    (hearly : serverOffset filesize stored + stream.length < filesize) :
    (receiveResumable hash filesize digest stored dest0 stream).status = none
  ∧ (receiveResumable hash filesize digest stored dest0 stream).partFile
      = some (partBase filesize stored ++ stream)
  ∧ (receiveResumable hash filesize digest stored dest0 stream).destFile = dest0
  ∧ (receiveResumable hash filesize digest stored dest0 stream).retOk = false := by
  have hcont : recvContent filesize stored stream
      = partBase filesize stored ++ stream := by
    simp only [recvContent, serverOffset] at *
    congr 1
    apply List.take_of_length_le
    omega
  have hlt : (recvContent filesize stored stream).length < filesize := by
    rw [recvContent_length]
    simp only [serverOffset] at *
    omega
  simp only [receiveResumable]
  rw [if_pos hlt, hcont]
  exact ⟨rfl, rfl, rfl, rfl⟩

/-- Witness for C4: declared size 3, 1-byte partial, one further byte
arriving -- no status is sent and the partial holds both bytes. -/
theorem resumable_early_close_witness :
    (receiveResumable (fun l => l) 3 [] (some [1]) none [2]).status = none
  ∧ (receiveResumable (fun l => l) 3 [] (some [1]) none [2]).partFile = some [1, 2]
  ∧ (receiveResumable (fun l => l) 3 [] (some [1]) none [2]).retOk = false := by
  have h := resumable_early_close (fun l => l) 3 [] (some [1]) none [2] (by decide)
  refine ⟨h.1, ?_, h.2.2.2⟩
  simpa using h.2.1

/-- Counterexample to claim C5: with a declared size of 2 bytes the
stream closes after delivering a single byte, yet `_receive_files_single`
still replies `OK` (not a failure status), keeps the partially written
output file `[7]` on disk, and returns `(filename, filesize)` as if the
transfer had succeeded -- contradicting "the transfer is reported as
failed (status other than 'OK') and no partial output file is kept". -/
theorem receive_single_early_close_counterexample :
    (receiveFilesSingle 2 [7]).status = some Status.ok
  ∧ (receiveFilesSingle 2 [7]).written = some [7]
  ∧ (receiveFilesSingle 2 [7]).retOk = true := by
  decide

/-- Claim C5 as amended: the non-resumable single-file receiver replies
`OK` after its receive loop in every case -- after consuming exactly
`size` bytes, but also when the stream closes early, in which case the
partially written output file (holding exactly the bytes received so far)
is kept on disk rather than removed. -/
theorem receive_single_status (filesize : Nat) (stream : List Nat) :
    (receiveFilesSingle filesize stream).status = some Status.ok
  ∧ (filesize ≤ stream.length →
      (receiveFilesSingle filesize stream).written = some (stream.take filesize)
      ∧ (stream.take filesize).length = filesize)
  ∧ (stream.length < filesize →
      (receiveFilesSingle filesize stream).written = some stream) := by
  refine ⟨rfl, ?_, ?_⟩
  · intro h
    refine ⟨rfl, ?_⟩
    simp [List.length_take]
    omega
  · intro h
    simp only [receiveFilesSingle]
    rw [List.take_of_length_le (by omega)]

/-- Witness for the amended C5: both a complete 1-of-1-byte transfer and
a truncated 1-of-2-byte transfer end with status `OK` and the received
bytes on disk. -/
theorem receive_single_status_witness :
    (receiveFilesSingle 1 [7]).written = some [7]
  ∧ (receiveFilesSingle 2 [7]).written = some [7]
  ∧ (receiveFilesSingle 2 [7]).status = some Status.ok := by
  have h1 := receive_single_status 1 [7]
  have h2 := receive_single_status 2 [7]
  refine ⟨?_, h2.2.2 (by decide), h2.1⟩
  simpa using (h1.2.1 (by decide)).1

/-- Claim C6: for every N, `_recv_exact` keeps calling the underlying
`recv` until it has collected exactly the first N bytes of the stream,
which it returns (consuming them); if the stream closes first it returns
`None` (connection closed); and the result is the same for every chunk
schedule `sched`, so a short read delivering fewer bytes than requested
is never an error. -/
theorem recvExact_exact (sched stream : List Nat) (n : Nat) :
    recvExact sched stream n
      = (if n ≤ stream.length then (some (stream.take n), stream.drop n)
         else (none, []))
  ∧ (stream.take n).length = min n stream.length := by
  exact ⟨recvExactGo_spec n sched stream, List.length_take n stream⟩

/-- Claim C7: the send operations make at most `MAX_RETRIES = 3` attempts,
retrying only the connection-level exceptions with sleeps of
`RETRY_DELAY * 2 ^ (i - 1)` seconds (2 s, then 4 s) between attempts and
re-raising after the last; a missing local source file or a non-`OK`
status reply propagates immediately with no retry attempt. -/
theorem retry_policy (outcomes : Nat → AttemptOutcome) :
    (MAX_RETRIES = 3 ∧ RETRY_DELAY = 2)
  ∧ ((∀ i, outcomes i = AttemptOutcome.raised ExcKind.connErr) →
        (retryWithBackoff outcomes).result = Except.error ExcKind.connErr
      ∧ (retryWithBackoff outcomes).attemptsMade = 3
      ∧ (retryWithBackoff outcomes).sleeps
          = [RETRY_DELAY * 2 ^ 0, RETRY_DELAY * 2 ^ 1])
  ∧ (∀ v, outcomes 1 = AttemptOutcome.success v →
        (retryWithBackoff outcomes).result = Except.ok v
      ∧ (retryWithBackoff outcomes).attemptsMade = 1
      ∧ (retryWithBackoff outcomes).sleeps = [])
  ∧ (outcomes 1 = AttemptOutcome.raised ExcKind.protoErr →
        (retryWithBackoff outcomes).result = Except.error ExcKind.protoErr
      ∧ (retryWithBackoff outcomes).attemptsMade = 1
      ∧ (retryWithBackoff outcomes).sleeps = [])
  ∧ ((sendSingleFileOp false outcomes).result = Except.error ExcKind.fileNotFound
      ∧ (sendSingleFileOp false outcomes).attemptsMade = 0
      ∧ (sendSingleFileOp false outcomes).sleeps = [])
  ∧ (retryWithBackoff outcomes).attemptsMade ≤ MAX_RETRIES := by
  refine ⟨⟨rfl, rfl⟩, ?_, ?_, ?_, ⟨rfl, rfl, rfl⟩, ?_⟩
  · intro h
    simp [retryWithBackoff, retryGo, h 1, h 2, h 3, caughtByRetry, MAX_RETRIES, RETRY_DELAY]
  · intro v h
    simp [retryWithBackoff, retryGo, h, MAX_RETRIES]
  · intro h
    simp [retryWithBackoff, retryGo, h, caughtByRetry, MAX_RETRIES]
  · have hgen : ∀ fuel attempt, (retryGo outcomes attempt fuel).attemptsMade ≤ fuel := by
      intro fuel
      induction fuel with
      | zero => intro attempt; simp [retryGo]
      | succ f ih =>
        intro attempt
        simp only [retryGo]
        cases houtcome : outcomes attempt with
        | success v => simp
        | raised e =>
          by_cases hc : caughtByRetry e = true
          · by_cases ha : attempt < MAX_RETRIES
            · have := ih (attempt + 1)
              simp [hc, ha]
              omega
            · simp [hc, ha]
          · simp [hc]
    exact hgen MAX_RETRIES 1

/-- Witness for C7: three connection errors give 3 attempts with sleeps
[2, 4]; an immediate non-`OK`-status exception gives exactly 1 attempt
and no sleep; a missing source file gives 0 attempts. -/
theorem retry_policy_witness :
    (retryWithBackoff fun _ => AttemptOutcome.raised ExcKind.connErr).attemptsMade = 3
  ∧ (retryWithBackoff fun _ => AttemptOutcome.raised ExcKind.connErr).sleeps = [2, 4]
  ∧ (retryWithBackoff fun _ => AttemptOutcome.raised ExcKind.protoErr).attemptsMade = 1
  ∧ (sendSingleFileOp false fun _ => AttemptOutcome.success 0).attemptsMade = 0 := by
  have h1 := retry_policy (fun _ => AttemptOutcome.raised ExcKind.connErr)
  have h2 := retry_policy (fun _ => AttemptOutcome.raised ExcKind.protoErr)
  have h3 := retry_policy (fun _ => AttemptOutcome.success 0)
  refine ⟨(h1.2.1 (fun i => rfl)).2.1, ?_, (h2.2.2.2.1 rfl).2.1, h3.2.2.2.2.1.2.1⟩
  have := (h1.2.1 (fun i => rfl)).2.2
  simpa [RETRY_DELAY] using this

theorem receiveSingleInner_frame (name content rest : List Nat)
    (hn : name.length < 2 ^ 32) (hc : content.length < 2 ^ 64) :
    receiveSingleInner (encodeFile name content ++ rest)
      = some ((name, content), rest) := by
  have h4 := takeExact_append 4 (u32enc name.length)
    (name ++ (u64enc content.length ++ (content ++ rest))) (length_u32enc name.length)
  have hname := takeExact_append name.length name
    (u64enc content.length ++ (content ++ rest)) rfl
  have h8 := takeExact_append 8 (u64enc content.length) (content ++ rest)
    (length_u64enc content.length)
  simp [receiveSingleInner, encodeFile, List.append_assoc, h4, hname, h8,
    beDec_u32enc name.length hn, beDec_u64enc content.length hc,
    List.take_left' rfl, List.drop_left' rfl]

theorem receiveMultiLoop_frames (files : List (List Nat × List Nat))
    (hfiles : ∀ f ∈ files, f.1.length < 2 ^ 32 ∧ f.2.length < 2 ^ 64) :
    ∀ tail, receiveMultiLoop files.length
        ((files.map fun f => encodeFile f.1 f.2).flatten ++ tail)
      = (files, tail) := by
  induction files with
  | nil => intro tail; simp [receiveMultiLoop]
  | cons f fs ih =>
    intro tail
    have hf := hfiles f (by simp)
    have hfs : ∀ g ∈ fs, g.1.length < 2 ^ 32 ∧ g.2.length < 2 ^ 64 := by
      intro g hg
      exact hfiles g (by simp [hg])
    simp only [List.map_cons, List.flatten_cons, List.length_cons, List.append_assoc]
    rw [receiveMultiLoop, receiveSingleInner_frame f.1 f.2 _ hf.1 hf.2]
    simp [ih hfs tail]

/-- Claim C8: sending files `[F1..Fn]` via the multi-file protocol puts
the count and then each file's header and raw bytes on the wire back to
back in list order with no per-file acknowledgment; the receiver runs the
single-file inner receive exactly `n` times, writing each file fully (in
order) before the next, and sends exactly one `OK` status after all `n`
files are consumed. -/
theorem multi_file_round_trip (files : List (List Nat × List Nat))
    (hcount : files.length < 2 ^ 32)
    (hfiles : ∀ f ∈ files, f.1.length < 2 ^ 32 ∧ f.2.length < 2 ^ 64) :
    sendMultiPayload files
      = u32enc files.length ++ (files.map fun f => encodeFile f.1 f.2).flatten
  ∧ receiveFilesMulti (sendMultiPayload files)
      = { files := files, status := some Status.ok } := by
  refine ⟨rfl, ?_⟩
  rw [receiveFilesMulti, sendMultiPayload,
    takeExact_append 4 (u32enc files.length) _ (length_u32enc files.length)]
  simp only [beDec_u32enc files.length hcount]
  have h := receiveMultiLoop_frames files hfiles []
  rw [List.append_nil] at h
  rw [h]

/-- Witness for C8: two concrete files survive the multi-file round trip
in order with a single `OK`. -/
theorem multi_file_round_trip_witness :
    receiveFilesMulti (sendMultiPayload [([97], [1, 2]), ([98], [3])])
      = { files := [([97], [1, 2]), ([98], [3])], status := some Status.ok } := by
  exact (multi_file_round_trip [([97], [1, 2]), ([98], [3])]
    (by decide) (by decide)).2

theorem keysOf_cons (p : String × Peer) (l : List (String × Peer)) :
    keysOf (p :: l) = p.1 :: keysOf l := rfl

theorem keysOf_upsertPeer (t : List (String × Peer)) (k : String) (v : Peer) :
    keysOf (upsertPeer t k v)
      = if k ∈ keysOf t then keysOf t else keysOf t ++ [k] := by
  induction t with
  | nil => simp [upsertPeer, keysOf]
  | cons hd tl ih =>
    obtain ⟨k1, v1⟩ := hd
    by_cases e : k1 = k
    · subst e
      have h1 : upsertPeer ((k1, v1) :: tl) k1 v = (k1, v) :: tl := by
        simp [upsertPeer]
      have h2 : k1 ∈ keysOf ((k1, v1) :: tl) := by
        simp [keysOf]
      rw [h1, if_pos h2, keysOf_cons, keysOf_cons]
    · have h1 : upsertPeer ((k1, v1) :: tl) k v = (k1, v1) :: upsertPeer tl k v := by
        simp [upsertPeer, e]
      rw [h1, keysOf_cons, keysOf_cons, ih]
      by_cases hm : k ∈ keysOf tl
      · rw [if_pos hm, if_pos (List.mem_cons_of_mem _ hm)]
      · have hout : ¬ k ∈ (k1, v1).1 :: keysOf tl := by
          intro hk
          rcases List.mem_cons.mp hk with h | h
          · exact e h.symm
          · exact hm h
        rw [if_neg hm, if_neg hout]
        simp

theorem lookupPeer_upsertPeer (t : List (String × Peer)) (k : String) (v : Peer) :
    lookupPeer (upsertPeer t k v) k = some v := by
  induction t with
  | nil => simp [upsertPeer, lookupPeer]
  | cons hd tl ih =>
    obtain ⟨k1, v1⟩ := hd
    by_cases e : k1 = k
    · subst e
      simp [upsertPeer, lookupPeer]
    · simp [upsertPeer, lookupPeer, e, ih]

theorem sameKeySet_refl (a : List String) : sameKeySet a a = true := by
  simp [sameKeySet, List.all_eq_true]

theorem sameKeySet_snoc_false (a : List String) (k : String) (h : k ∉ a) :
    sameKeySet a (a ++ [k]) = false := by
  have hall : (a ++ [k]).all (fun x => a.contains x) = false := by
    rw [List.all_eq_false]
    exact ⟨k, by simp, by simpa using h⟩
  simp only [sameKeySet, hall, Bool.and_false]

theorem nodup_key_val (t : List (String × Peer)) (hnd : (keysOf t).Nodup)
    (k : String) (a b : Peer) (ha : (k, a) ∈ t) (hb : (k, b) ∈ t) : a = b := by
  induction t with
  | nil => cases ha
  | cons hd tl ih =>
    obtain ⟨k1, v1⟩ := hd
    rw [keysOf_cons, List.nodup_cons] at hnd
    rcases List.mem_cons.mp ha with ha1 | ha2
    · rcases List.mem_cons.mp hb with hb1 | hb2
      · rw [Prod.mk.injEq] at ha1 hb1
        rw [ha1.2, hb1.2]
      · exfalso
        rw [Prod.mk.injEq] at ha1
        apply hnd.1
        show k1 ∈ keysOf tl
        rw [← ha1.1]
        simpa [keysOf] using List.mem_map_of_mem Prod.fst hb2
    · rcases List.mem_cons.mp hb with hb1 | hb2
      · exfalso
        rw [Prod.mk.injEq] at hb1
        apply hnd.1
        show k1 ∈ keysOf tl
        rw [← hb1.1]
        simpa [keysOf] using List.mem_map_of_mem Prod.fst ha2
      · exact ih hnd.2 ha2 hb2

/-- Claim C9: a valid beacon naming this instance leaves the table
unchanged with no callback; any other beacon upserts that name with the
beacon's ip and port and `lastSeen = now`, and the callback fires iff the
key set changed (so never on a heartbeat refresh of a present peer); the
reaper keeps exactly the entries with `now - lastSeen ≤ TIMEOUT` and
fires the callback iff some entry was removed. -/
theorem discovery_peer_table (machineName : String) (hasCallback : Bool)
    (t : List (String × Peer)) (m : BeaconMsg) (now : Nat) :
    (m.name = machineName → handleBeacon machineName hasCallback t m now = (t, false))
  ∧ (m.name ≠ machineName →
        lookupPeer (handleBeacon machineName hasCallback t m now).1 m.name
          = some { ip := m.ip, port := m.port, lastSeen := now }
      ∧ ((handleBeacon machineName hasCallback t m now).2 = true ↔
           hasCallback = true ∧ m.name ∉ keysOf t))
  ∧ ((keysOf t).Nodup →
        (∀ e, e ∈ (cleanupStep hasCallback t now).1 ↔
            e ∈ t ∧ now - e.2.lastSeen ≤ TIMEOUT)
      ∧ ((cleanupStep hasCallback t now).2 = true ↔
           hasCallback = true ∧ ∃ e ∈ t, TIMEOUT < now - e.2.lastSeen)) := by
  refine ⟨?_, ?_, ?_⟩
  · intro h
    simp [handleBeacon, h]
  · intro h
    constructor
    · simp only [handleBeacon, if_neg h]
      exact lookupPeer_upsertPeer t m.name _
    · simp only [handleBeacon, if_neg h]
      rw [keysOf_upsertPeer]
      by_cases hm : m.name ∈ keysOf t
      · rw [if_pos hm, sameKeySet_refl]
        simp [hm]
      · rw [if_neg hm, sameKeySet_snoc_false (keysOf t) m.name hm]
        simp [hm]
  · intro hnd
    constructor
    · intro e
      simp only [cleanupStep, List.mem_filter, isStale]
      constructor
      · intro he
        refine ⟨he.1, ?_⟩
        have := he.2
        simp at this
        omega
      · intro he
        refine ⟨he.1, ?_⟩
        simp
        omega
    · by_cases hstale : ∃ e ∈ t, TIMEOUT < now - e.2.lastSeen
      · obtain ⟨e, het, hes⟩ := hstale
        have hkey1 : e.1 ∈ keysOf t := List.mem_map_of_mem Prod.fst het
        have hkey2 : e.1 ∉ keysOf (t.filter fun p => !isStale now p) := by
          intro hmem
          simp only [keysOf, List.mem_map] at hmem
          obtain ⟨x, hx, hx1⟩ := hmem
          have hxt := List.mem_filter.mp hx
          have hxe : x.2 = e.2 := by
            apply nodup_key_val t hnd e.1
            · have hx2 : x = (e.1, x.2) := by
                rw [← hx1]
              rw [← hx2]
              exact hxt.1
            · exact het
          have hns := hxt.2
          rw [isStale, hxe] at hns
          simp at hns
          omega
        have hall : (keysOf t).all
            (fun k => (keysOf (t.filter fun p => !isStale now p)).contains k) = false := by
          rw [List.all_eq_false]
          exact ⟨e.1, hkey1, by simpa using hkey2⟩
        have hfired : (cleanupStep hasCallback t now).2 = hasCallback := by
          simp only [cleanupStep, sameKeySet, hall, Bool.false_and, Bool.not_false,
            Bool.true_and]
        rw [hfired]
        constructor
        · intro hb
          exact ⟨hb, e, het, hes⟩
        · intro hb
          exact hb.1
      · have hkeep : t.filter (fun p => !isStale now p) = t := by
          apply List.filter_eq_self.mpr
          intro a ha
          have hng : ¬ TIMEOUT < now - a.2.lastSeen := by
            intro hlt
            exact hstale ⟨a, ha, hlt⟩
          simp [isStale]
          omega
        have hfired : (cleanupStep hasCallback t now).2 = false := by
          simp only [cleanupStep, hkeep, sameKeySet_refl, Bool.not_true, Bool.false_and]
        rw [hfired]
        constructor
        · intro hb
          simp at hb
        · intro hb
          exact absurd hb.2 hstale

/-- Witness for C9: a fresh peer beacon fires the callback, a heartbeat
of the same peer does not, and the reaper evicts it once stale. -/
theorem discovery_peer_table_witness :
    (handleBeacon "me" true [] { name := "bob", ip := "10.0.0.2", port := 5000 } 7).2 = true
  ∧ lookupPeer (handleBeacon "me" true [] { name := "bob", ip := "10.0.0.2", port := 5000 } 7).1 "bob"
      = some { ip := "10.0.0.2", port := 5000, lastSeen := 7 }
  ∧ (handleBeacon "me" true
        [("bob", { ip := "10.0.0.2", port := 5000, lastSeen := 3 })]
        { name := "bob", ip := "10.0.0.2", port := 5000 } 7).2 = false
  ∧ (cleanupStep true
        [("bob", { ip := "10.0.0.2", port := 5000, lastSeen := 3 })] 9).2 = true := by
  have h1 := discovery_peer_table "me" true [] { name := "bob", ip := "10.0.0.2", port := 5000 } 7
  have h2 := discovery_peer_table "me" true
    [("bob", { ip := "10.0.0.2", port := 5000, lastSeen := 3 })]
    { name := "bob", ip := "10.0.0.2", port := 5000 } 7
  have h3 := discovery_peer_table "me" true
    [("bob", { ip := "10.0.0.2", port := 5000, lastSeen := 3 })]
    { name := "x", ip := "", port := 0 } 9
  refine ⟨?_, (h1.2.1 (by decide)).1, ?_, ?_⟩
  · exact ((h1.2.1 (by decide)).2).mpr ⟨rfl, by decide⟩
  · have := ((h2.2.1 (by decide)).2)
    by_contra hb
    rw [Bool.not_eq_false] at hb
    have hc := this.mp hb
    apply hc.2
    decide
  · exact (h3.2.2 (by decide)).2.mpr ⟨rfl,
      ⟨("bob", { ip := "10.0.0.2", port := 5000, lastSeen := 3 }), by decide, by decide⟩⟩

theorem dispatchProto_magic (m : Nat) (hm : m < 2 ^ 32) (s : List Nat) :
    dispatchProto (u32enc m ++ s)
      = some ((if m = MAGIC_SINGLE then Proto.single
               else if m = MAGIC_MULTI then Proto.multi
               else if m = MAGIC_RESUMABLE then Proto.resumable
               else Proto.unknown m), s) := by
  rw [dispatchProto, takeExact_append 4 (u32enc m) s (length_u32enc m)]
  simp only [beDec_u32enc m hm]
  split
  · rfl
  · split
    · rfl
    · split
      · rfl
      · rfl

/-- Claim C10: `send_file` opens the connection with the resumable magic
`0xFFFF0003` for any non-directory path (same as `send_single_file`'s
header) and with the multi magic `0xFFFF0002` for a directory; the wire
the client emits never starts with the legacy single-file magic
`0xFFFF0001`, which exists only as a dispatch branch the server accepts. -/
theorem client_magic_choice (hash : List Nat → List Nat)
    (name F : List Nat) (files : List (List Nat × List Nat)) (s : List Nat) :
    ((dispatchProto (sendFileWire hash false name F files)).map Prod.fst
        = some Proto.resumable)
  ∧ ((dispatchProto (sendFileWire hash true name F files)).map Prod.fst
        = some Proto.multi)
  ∧ (∀ d : Bool, (dispatchProto (sendFileWire hash d name F files)).map Prod.fst
        ≠ some Proto.single)
  ∧ dispatchProto (u32enc MAGIC_SINGLE ++ s) = some (Proto.single, s) := by
  have hres : (dispatchProto (sendFileWire hash false name F files)).map Prod.fst
      = some Proto.resumable := by
    have h : sendFileWire hash false name F files
        = u32enc MAGIC_RESUMABLE
          ++ (u32enc name.length ++ name ++ u64enc F.length ++ u32enc 65536 ++ hash F) := by
      simp [sendFileWire, sendSingleHeader, List.append_assoc]
    rw [h, dispatchProto_magic MAGIC_RESUMABLE (by norm_num [MAGIC_RESUMABLE])]
    norm_num [MAGIC_RESUMABLE, MAGIC_SINGLE, MAGIC_MULTI]
  have hmul : (dispatchProto (sendFileWire hash true name F files)).map Prod.fst
      = some Proto.multi := by
    have h : sendFileWire hash true name F files
        = u32enc MAGIC_MULTI ++ sendMultiPayload files := by
      simp [sendFileWire, sendMultiWire]
    rw [h, dispatchProto_magic MAGIC_MULTI (by norm_num [MAGIC_MULTI])]
    norm_num [MAGIC_SINGLE, MAGIC_MULTI]
  refine ⟨hres, hmul, ?_, ?_⟩
  · intro d
    cases d
    · rw [hres]
      simp
    · rw [hmul]
      simp
  · rw [dispatchProto_magic MAGIC_SINGLE (by norm_num [MAGIC_SINGLE]) s]
    simp

/-- Witness for C10 (none required -- the claim theorem has no
propositional hypothesis): concrete wires of both client paths dispatch
to the resumable and multi branches, never the legacy single branch. -/
theorem client_magic_choice_witness :
    (dispatchProto (sendFileWire (fun l => l) false [97] [1, 2] [])).map Prod.fst
      = some Proto.resumable
  ∧ (dispatchProto (sendFileWire (fun l => l) true [97] [1, 2] [([97], [1])])).map Prod.fst
      = some Proto.multi := by
  have h := client_magic_choice (fun l => l) [97] [1, 2] [([97], [1])] []
  exact ⟨(client_magic_choice (fun l => l) [97] [1, 2] [] []).1, h.2.1⟩

